import Mathlib

/-!
# Verification of the disk_puri schema model and execution engine

A shallow embedding in Lean 4 of the schema/engine logic of
`disk_puri.py`: command synthesis (`build_dd_command`), invocation
classification (`execute_command`), the schema-store menu operations
(`delete_source`, `copy_source`, `set_repeat_count`), the run loop
(`run_schema`), and the interruption cleanup handler (`cleanup`).

Conventions of the embedding:
* user input that is read and integer-parsed inside a function is passed
  as an `Option Int` argument (`none` models a string that raises
  `ValueError` in `int(...)`);
* the filesystem is modelled as a predicate `String → Bool` telling
  which paths currently name an existing regular file;
* the external process-execution collaborator is modelled as an oracle
  giving, for each (run number, 1-based source position), the boolean
  result of `execute_command` on that invocation;
* the unbounded `while` loop of `run_schema` is given explicit fuel (one
  unit per schema pass); an `OutOfFuel` result means the modelled
  execution was cut short, never that the program stopped.
-/

namespace DiskPuri

/-- Whether `needle` occurs as a contiguous substring of `haystack`,
modelling Python's `needle in haystack` on strings. -/
def strContains (haystack needle : String) : Bool :=
  (List.range (haystack.data.length + 1)).any fun i =>
    needle.data.isPrefixOf (haystack.data.drop i)

/-- The substring of `dd`'s error output that `execute_command` treats as
the device-full success marker. -/
def device_full_marker : String := "No space left on device"

/-- Outcome of attempting to start one shell invocation: either the
process ran to completion with an exit status and captured stderr text,
or `subprocess.run` itself raised and the invocation never started. -/
inductive InvocationOutcome where
  | started (returncode : Int) (stderr : String)
  | notStarted
  deriving DecidableEq

/-- `execute_command` from `disk_puri.py`: exit status 0 is success;
a non-zero exit whose captured stderr contains the device-full marker is
also success; any other non-zero exit, or an invocation that raised
before producing a process, is failure. -/
def execute_command : InvocationOutcome → Bool
  | .started rc stderr =>
      if rc = 0 then true
      else if strContains stderr device_full_marker then true
      else false
  | .notStarted => false

/-- `build_dd_command` from `disk_puri.py`: the continuous form wraps the
input in an unbounded `cat` loop piped into a single `dd` consumer; the
plain form is a single `dd` transfer. -/
def build_dd_command (if_device of_device flags : String)
    (continuous_write : Bool) : String :=
  if continuous_write then
    "while :; do cat " ++ if_device ++ "; done | dd of=" ++ of_device
      ++ " " ++ flags
  else
    "dd if=" ++ if_device ++ " of=" ++ of_device ++ " " ++ flags

/-- One schema entry, as stored in `schema_sources`: a dict with the
target device, the source-type key, the dd flags and the synthesized
command string. -/
structure Source where
  device : String
  type : String
  flags : String
  command : String
  deriving DecidableEq

/-- What a schema-store menu operation reported to the user. -/
inductive MenuResult where
  | deleted
  | copied
  | emptyMsg
  | parseError
  | invalidNumber
  deriving DecidableEq

/-- `delete_source` from `disk_puri.py`. An empty schema prints
"No sources to delete." before any input is read; a non-integer input
string (`input = none`) hits the `ValueError` handler; an in-range
1-based number deletes that entry (`del schema_sources[i]`); anything
else prints "Invalid source number.". The returned list is the schema
after the call. -/
def delete_source (sources : List Source) (input : Option Int) :
    List Source × MenuResult :=
  if sources.isEmpty then (sources, .emptyMsg)
  else
    match input with
    | none => (sources, .parseError)
    | some n =>
      let i : Int := n - 1
      if 0 ≤ i ∧ i < (sources.length : Int) then
        (sources.eraseIdx i.toNat, .deleted)
      else (sources, .invalidNumber)

/-- `copy_source` from `disk_puri.py`. Same input handling as
`delete_source`; an in-range 1-based number appends a value copy of that
entry (`schema_sources.append(schema_sources[i].copy())`). -/
def copy_source (sources : List Source) (input : Option Int) :
    List Source × MenuResult :=
  if sources.isEmpty then (sources, .emptyMsg)
  else
    match input with
    | none => (sources, .parseError)
    | some n =>
      let i : Int := n - 1
      if h : 0 ≤ i ∧ i < (sources.length : Int) then
        (sources ++ [sources.get ⟨i.toNat, by omega⟩], .copied)
      else (sources, .invalidNumber)

/-- `set_repeat_count` from `disk_puri.py`. The result is the new value
of the global `schema_repeat_count` paired with whether the
"Invalid input. Setting repeat count to 1 by default." message was
printed. `prev` is the previously stored repeat count; the function
overwrites it unconditionally: a non-integer input (`none`) or a
negative number both store the fallback value 1. -/
def set_repeat_count (_prev : Int) (input : Option Int) : Int × Bool :=
  match input with
  | none => (1, true)
  | some n => if n < 0 then (1, true) else (n, false)

/-- Terminal state of one call to `run_schema` in the fuel model:
`Completed` is reaching the final "Disk preparation completed." print,
`Aborted` is the early `return` after "Error during execution.", and
`OutOfFuel` only flags that the model's fuel ran out first. -/
inductive EngineStatus where
  | Completed
  | Aborted
  | OutOfFuel
  deriving DecidableEq

/-- The inner `for` loop of `run_schema`: runs the sources of one pass
in order starting at 1-based position `i` during run number `run`,
consulting the oracle `exec` for each invocation's classified result.
Returns the trace of (run, position) pairs actually invoked, and whether
the pass completed without failure (`false` means the `return` in the
failure branch fired). -/
def run_pass (exec : Nat → Nat → Bool) (run : Nat) :
    Nat → List Source → List (Nat × Nat) × Bool
  | _, [] => ([], true)
  | i, _ :: rest =>
    if exec run i then
      let r := run_pass exec run (i + 1) rest
      ((run, i) :: r.1, r.2)
    else ([(run, i)], false)

/-- The outer `while` loop of `run_schema`, with `run_count` the loop
variable and explicit `fuel` bounding how many passes the model may
still unfold. The loop guard is the code's
`schema_repeat_count == 0 or run_count < schema_repeat_count`. -/
def run_loop (exec : Nat → Nat → Bool) (sources : List Source)
    (rep : Nat) : Nat → Nat → List (Nat × Nat) × EngineStatus
  | run_count, 0 =>
    if rep = 0 ∨ run_count < rep then ([], .OutOfFuel)
    else ([], .Completed)
  | run_count, fuel + 1 =>
    if rep = 0 ∨ run_count < rep then
      let run := run_count + 1
      let p := run_pass exec run 1 sources
      if p.2 then
        let r := run_loop exec sources rep run fuel
        (p.1 ++ r.1, r.2)
      else (p.1, .Aborted)
    else ([], .Completed)

/-- `run_schema` from `disk_puri.py`: the run loop started from
`run_count = 0`, given `fuel` passes of budget. -/
def run_schema (exec : Nat → Nat → Bool) (sources : List Source)
    (rep : Nat) (fuel : Nat) : List (Nat × Nat) × EngineStatus :=
  run_loop exec sources rep 0 fuel

/-- The expected invocation trace of one fully successful pass:
`pass_trace run i m` lists the `m` consecutive (run, position) pairs
starting at position `i`, i.e. the sources invoked in original schema
order during run number `run`. -/
def pass_trace (run : Nat) : Nat → Nat → List (Nat × Nat)
  | _, 0 => []
  | i, m + 1 => (run, i) :: pass_trace run (i + 1) m

/-- One pass of the if-present-remove loop of `cleanup`: for each
tracked path in order, if the filesystem has it as a regular file, the
file is removed (`os.remove`). Returns the filesystem after the loop. -/
def cleanup_files : List String → (String → Bool) → (String → Bool)
  | [], fs => fs
  | t :: ts, fs =>
    cleanup_files ts (if fs t then fun q => if q = t then false else fs q else fs)

/-- `cleanup` from `disk_puri.py`, as a state transformer on
(tracked list, filesystem): it removes every tracked path that still
exists but leaves the `temp_files` list itself untouched (the code never
clears it; it relies on `sys.exit(0)` right after). -/
def cleanup (tracked : List String) (fs : String → Bool) :
    List String × (String → Bool) :=
  (tracked, cleanup_files tracked fs)

/-- `DEFAULT_DD_FLAGS` from `disk_puri.py`. -/
def DEFAULT_DD_FLAGS : String :=
  "bs=4M iflag=fullblock oflag=direct conv=fdatasync status=progress"

/-- A concrete zeros-type schema entry, built the way
`add_source_to_schema` would build it, used to instantiate theorems. -/
def sampleSource : Source :=
  { device := "/dev/sdb", type := "zeros", flags := DEFAULT_DD_FLAGS
    command := build_dd_command "/dev/zero" "/dev/sdb" DEFAULT_DD_FLAGS false }

/-- A concrete random-type schema entry, used to instantiate theorems. -/
def sampleSource2 : Source :=
  { device := "/dev/sdb", type := "random", flags := DEFAULT_DD_FLAGS
    command := build_dd_command "/dev/urandom" "/dev/sdb" DEFAULT_DD_FLAGS false }

end DiskPuri

namespace DiskPuri

/-- When every invocation of run number `run` succeeds, the inner loop
visits the whole remaining schema in order and reports a clean pass. -/
theorem run_pass_all_success (exec : Nat → Nat → Bool) (run : Nat)
    (hall : ∀ j, exec run j = true) (ss : List Source) :
    ∀ i : Nat, run_pass exec run i ss = (pass_trace run i ss.length, true) := by
  induction ss with
  | nil => intro i; rfl
  | cons s rest ih =>
    intro i
    simp only [run_pass, hall i, if_true, ih (i + 1), List.length_cons,
      pass_trace]

/-- A pass that reports success only invoked succeeding invocations. -/
theorem run_pass_mem_true (exec : Nat → Nat → Bool) (run : Nat)
    (ss : List Source) :
    ∀ i : Nat, (run_pass exec run i ss).2 = true →
      ∀ q ∈ (run_pass exec run i ss).1, exec q.1 q.2 = true := by
  induction ss with
  | nil => intro i _ q hq; simp [run_pass] at hq
  | cons s rest ih =>
    intro i hok q hq
    by_cases hi : exec run i = true
    · simp only [run_pass, hi, if_true] at hok hq
      rcases List.mem_cons.mp hq with hq | hq
      · subst hq; exact hi
      · exact ih (i + 1) hok q hq
    · simp only [run_pass, hi, if_false] at hok
      simp at hi
      simp [hi] at hok

/-- Within one pass, a failed invocation is the last one in the trace. -/
theorem run_pass_fail_last (exec : Nat → Nat → Bool) (run : Nat)
    (ss : List Source) :
    ∀ i : Nat, ∀ q ∈ (run_pass exec run i ss).1, exec q.1 q.2 = false →
      (run_pass exec run i ss).1.getLast? = some q := by
  induction ss with
  | nil => intro i q hq; simp [run_pass] at hq
  | cons s rest ih =>
    intro i q hq hfail
    by_cases hi : exec run i = true
    · simp only [run_pass, hi, if_true] at hq ⊢
      rcases List.mem_cons.mp hq with hq | hq
      · subst hq; rw [hi] at hfail; cases hfail
      · have hlast := ih (i + 1) q hq hfail
        exact List.mem_getLast?_cons hlast
    · simp only [run_pass, hi, if_false] at hq ⊢
      rcases List.mem_cons.mp hq with hq | hq
      · subst hq; rfl
      · simp at hq

/-- Across the whole run loop, a failed invocation is the last one in
the trace: once a Failure is classified, nothing further is invoked. -/
theorem run_loop_fail_last (exec : Nat → Nat → Bool)
    (sources : List Source) (rep : Nat) :
    ∀ (fuel rc : Nat), ∀ q ∈ (run_loop exec sources rep rc fuel).1,
      exec q.1 q.2 = false →
      (run_loop exec sources rep rc fuel).1.getLast? = some q := by
  intro fuel
  induction fuel with
  | zero =>
    intro rc q hq
    by_cases hg : rep = 0 ∨ rc < rep <;> simp [run_loop, hg] at hq
  | succ fuel ih =>
    intro rc q hq hfail
    by_cases hg : rep = 0 ∨ rc < rep
    · simp only [run_loop, if_pos hg] at hq ⊢
      by_cases hok : (run_pass exec (rc + 1) 1 sources).2 = true
      · simp only [hok, if_true] at hq ⊢
        have hq' : q ∈ (run_loop exec sources rep (rc + 1) fuel).1 := by
          rcases List.mem_append.mp hq with hq | hq
          · have := run_pass_mem_true exec (rc + 1) sources 1 hok q hq
            rw [this] at hfail; cases hfail
          · exact hq
        have hlast := ih (rc + 1) q hq' hfail
        rw [List.getLast?_append_of_ne_nil _ (List.ne_nil_of_mem hq')]
        exact hlast
      · simp only [hok, if_false] at hq ⊢
        exact run_pass_fail_last exec (rc + 1) sources 1 q hq hfail
    · simp [run_loop, hg] at hq

/-- How often position `j` occurs in the trace of one clean pass:
exactly once when `j` lies in the visited range, else not at all. -/
theorem pass_trace_filter_count (run j : Nat) :
    ∀ (m i : Nat),
      ((pass_trace run i m).filter (fun p => p.2 == j)).length =
        if i ≤ j ∧ j < i + m then 1 else 0 := by
  intro m
  induction m with
  | zero =>
    intro i
    rw [if_neg (by omega)]
    rfl
  | succ m ih =>
    intro i
    simp only [pass_trace, List.filter_cons]
    by_cases hj : i = j
    · subst hj
      rw [if_pos (by simp), List.length_cons, ih (i + 1),
        if_neg (by omega : ¬ (i + 1 ≤ i ∧ i < i + 1 + m)),
        if_pos (by omega : i ≤ i ∧ i < i + (m + 1))]
    · rw [if_neg (by simp [hj]), ih (i + 1),
        if_congr
          (by omega : (i + 1 ≤ j ∧ j < i + 1 + m) ↔ (i ≤ j ∧ j < i + (m + 1)))
          rfl rfl]

/-- Unfolding one iteration of the outer loop when the guard holds and
the pass completes cleanly. -/
theorem run_loop_step (exec : Nat → Nat → Bool) (sources : List Source)
    (rep rc fuel : Nat) (hg : rep = 0 ∨ rc < rep)
    (hok : (run_pass exec (rc + 1) 1 sources).2 = true) :
    run_loop exec sources rep rc (fuel + 1) =
      ((run_pass exec (rc + 1) 1 sources).1 ++
          (run_loop exec sources rep (rc + 1) fuel).1,
        (run_loop exec sources rep (rc + 1) fuel).2) := by
  simp only [run_loop, if_pos hg, hok, if_true]

/-- When the guard fails, the loop exits immediately as `Completed`,
whatever fuel remains. -/
theorem run_loop_exit (exec : Nat → Nat → Bool) (sources : List Source)
    (rep rc : Nat) (hg : ¬ (rep = 0 ∨ rc < rep)) (fuel : Nat) :
    run_loop exec sources rep rc fuel = ([], .Completed) := by
  cases fuel <;> simp [run_loop, hg]

/-- The removal loop of `cleanup` never resurrects a missing file. -/
theorem cleanup_files_false_mono (q : String) :
    ∀ (ts : List String) (fs : String → Bool), fs q = false →
      cleanup_files ts fs q = false := by
  intro ts
  induction ts with
  | nil => intro fs h; exact h
  | cons t ts ih =>
    intro fs h
    simp only [cleanup_files]
    apply ih
    by_cases ht : fs t = true
    · simp only [ht, if_true]
      by_cases hq : q = t <;> simp [hq, h]
    · simp [ht, h]

/-- After the removal loop, every tracked path is gone. -/
theorem cleanup_files_removes (p : String) :
    ∀ (ts : List String) (fs : String → Bool), p ∈ ts →
      cleanup_files ts fs p = false := by
  intro ts
  induction ts with
  | nil => intro fs h; simp at h
  | cons t ts ih =>
    intro fs hp
    simp only [cleanup_files]
    rcases List.mem_cons.mp hp with hp | hp
    · subst hp
      apply cleanup_files_false_mono
      by_cases ht : fs p = true <;> simp [ht]
    · exact ih _ hp

/-- The removal loop touches no untracked path. -/
theorem cleanup_files_preserves (p : String) :
    ∀ (ts : List String) (fs : String → Bool), p ∉ ts →
      cleanup_files ts fs p = fs p := by
  intro ts
  induction ts with
  | nil => intro fs _; rfl
  | cons t ts ih =>
    intro fs hp
    simp only [List.mem_cons, not_or] at hp
    simp only [cleanup_files]
    rw [ih _ hp.2]
    by_cases ht : fs t = true <;> simp [ht, hp.1]

/-- The removal loop is the identity once every tracked path is
already missing. -/
theorem cleanup_files_of_all_gone :
    ∀ (ts : List String) (fs : String → Bool),
      (∀ p ∈ ts, fs p = false) → cleanup_files ts fs = fs := by
  intro ts
  induction ts with
  | nil => intro fs _; rfl
  | cons t ts ih =>
    intro fs h
    have ht : fs t = false := h t (List.mem_cons_self t ts)
    simp only [cleanup_files]
    rw [if_neg (by simp [ht])]
    exact ih fs fun p hp => h p (List.mem_cons_of_mem t hp)

end DiskPuri

namespace DiskPuri

/-- C1: `execute_command` classifies an invocation as success exactly
when the exit status is zero, or the exit status is non-zero but the
captured stderr contains the device-full marker; every other outcome —
including an invocation that could not be started — is failure. -/
theorem execute_command_classification (o : InvocationOutcome) :
    execute_command o = true ↔
      ∃ rc stderr, o = .started rc stderr ∧
        (rc = 0 ∨ (rc ≠ 0 ∧ strContains stderr device_full_marker = true)) := by
  cases o with
  | started rc stderr =>
    constructor
    · intro h
      refine ⟨rc, stderr, rfl, ?_⟩
      by_cases hrc : rc = 0
      · exact Or.inl hrc
      · refine Or.inr ⟨hrc, ?_⟩
        simp only [execute_command, if_neg hrc] at h
        by_cases hm : strContains stderr device_full_marker = true
        · exact hm
        · simp [hm] at h
    · rintro ⟨rc', stderr', heq, hcase⟩
      injection heq with h1 h2
      subst h1; subst h2
      rcases hcase with h0 | ⟨hne, hm⟩
      · simp [execute_command, h0]
      · simp [execute_command, if_neg hne, hm]
  | notStarted =>
    constructor
    · intro h
      simp [execute_command] at h
    · rintro ⟨rc, stderr, heq, _⟩
      exact absurd heq (by simp)

/-- C2: the synthesized command matches the two documented templates
exactly: a single `dd if=<in> of=<target> <flags>` transfer when
`continuous_write` is false, and an unbounded producer
(`while :; do cat <in>; done`) piped into one `dd` consumer writing to
the target with the same flags when it is true. Determinism is inherent:
`build_dd_command` is a pure function of its four arguments. -/
theorem build_dd_command_templates (i o f : String) :
    build_dd_command i o f false = "dd if=" ++ i ++ " of=" ++ o ++ " " ++ f ∧
    build_dd_command i o f true =
      "while :; do cat " ++ i ++ "; done | dd of=" ++ o ++ " " ++ f := by
  exact ⟨rfl, rfl⟩

/-- C4 counterexample: with a previously stored repeat count of 5,
setting the repeat count to -1 does not leave the stored count
unchanged — the code overwrites it with the fallback value 1. -/
theorem set_repeat_count_not_unchanged :
    (set_repeat_count 5 (some (-1))).1 ≠ 5 := by
  decide

/-- C4 (amended): setting the repeat count to a negative value prints
the invalid-input message and stores the fallback value 1, regardless of
the previously stored count; the function substitutes the fallback
itself rather than rejecting the value and preserving the old one. -/
theorem set_repeat_count_negative_fallback (prev n : Int) (h : n < 0) :
    set_repeat_count prev (some n) = (1, true) := by
  simp [set_repeat_count, h]

/-- C4 witness: the amended theorem at prev = 5, n = -1. -/
theorem set_repeat_count_negative_fallback_witness :
    set_repeat_count 5 (some (-1)) = (1, true) :=
  set_repeat_count_negative_fallback 5 (-1) (by decide)

/-- C7: `delete_source` and `copy_source` called with an out-of-range
1-based index both report an error (the invalid-number message, or the
empty-schema message when the schema is empty), never crash, and leave
the schema — in particular its length — completely unchanged. -/
theorem delete_copy_out_of_range (sources : List Source) (n : Int)
    (h : n < 1 ∨ (sources.length : Int) < n) :
    delete_source sources (some n) =
      (sources, if sources.isEmpty then .emptyMsg else .invalidNumber) ∧
    copy_source sources (some n) =
      (sources, if sources.isEmpty then .emptyMsg else .invalidNumber) ∧
    (delete_source sources (some n)).1.length = sources.length ∧
    (copy_source sources (some n)).1.length = sources.length := by
  have hcond : ¬ (0 ≤ n - 1 ∧ n - 1 < (sources.length : Int)) := by omega
  have hd : delete_source sources (some n) =
      (sources, if sources.isEmpty then .emptyMsg else .invalidNumber) := by
    simp only [delete_source]
    by_cases he : sources.isEmpty
    · rw [if_pos he, if_pos he]
    · rw [if_neg he, if_neg he, if_neg hcond]
  have hc : copy_source sources (some n) =
      (sources, if sources.isEmpty then .emptyMsg else .invalidNumber) := by
    simp only [copy_source]
    by_cases he : sources.isEmpty
    · rw [if_pos he, if_pos he]
    · rw [if_neg he, if_neg he, dif_neg hcond]
  exact ⟨hd, hc, by rw [hd], by rw [hc]⟩

/-- C7 witness: the theorem at a one-element schema and index 5. -/
theorem delete_copy_out_of_range_witness :
    delete_source [sampleSource] (some 5) = ([sampleSource], .invalidNumber) ∧
    copy_source [sampleSource] (some 5) = ([sampleSource], .invalidNumber) := by
  have h := delete_copy_out_of_range [sampleSource] 5 (by decide)
  exact ⟨h.1.trans (by rfl), h.2.1.trans (by rfl)⟩

/-- C8: `copy_source` with an in-range 1-based index `n` reports the
copy, grows the schema by exactly one entry, leaves the first
`sources.length` entries unchanged, and the new last entry equals entry
`n` by value (hence in particular has an equal `command` field). -/
theorem copy_source_in_range (sources : List Source) (n : Int)
    (h1 : 1 ≤ n) (h2 : n ≤ (sources.length : Int)) :
    (copy_source sources (some n)).2 = .copied ∧
    (copy_source sources (some n)).1.length = sources.length + 1 ∧
    (copy_source sources (some n)).1.take sources.length = sources ∧
    (copy_source sources (some n)).1.getLast? = sources.get? (n - 1).toNat := by
  have hlen : 0 < sources.length := by
    by_contra hc
    push_neg at hc
    interval_cases hle : sources.length
    omega
  have hempty : sources.isEmpty = false := by
    cases sources with
    | nil => simp at hlen
    | cons a l => rfl
  have hcond : 0 ≤ n - 1 ∧ n - 1 < (sources.length : Int) := by omega
  have hi : (n - 1).toNat < sources.length := by omega
  have hred : copy_source sources (some n) =
      (sources ++ [sources.get ⟨(n - 1).toNat, hi⟩], .copied) := by
    simp [copy_source, hempty, hcond]
  rw [hred]
  refine ⟨rfl, by simp, by simp, ?_⟩
  rw [List.getLast?_concat]
  exact (List.get?_eq_get hi).symm

/-- C8 witness: the theorem at a two-element schema and index 1. -/
theorem copy_source_in_range_witness :
    (copy_source [sampleSource, sampleSource2] (some 1)).2 = .copied ∧
    (copy_source [sampleSource, sampleSource2] (some 1)).1.length = 3 := by
  have h := copy_source_in_range [sampleSource, sampleSource2] 1
    (by decide) (by decide)
  exact ⟨h.1, h.2.1.trans (by rfl)⟩

/-- C10: a non-integer index string (modelled as `input = none`, the
`ValueError` path) and an empty schema both make `delete_source` and
`copy_source` return normally with the schema unchanged. -/
theorem delete_copy_bad_input (sources : List Source) (input : Option Int)
    (h : input = none ∨ sources = []) :
    (delete_source sources input).1 = sources ∧
    (copy_source sources input).1 = sources := by
  rcases h with h | h
  · subst h
    by_cases he : sources.isEmpty <;>
      exact ⟨by simp [delete_source, he], by simp [copy_source, he]⟩
  · subst h
    exact ⟨by simp [delete_source], by simp [copy_source]⟩

/-- C10 witness: the theorem at the empty schema with a parsed index. -/
theorem delete_copy_bad_input_witness :
    (delete_source [] (some 3)).1 = [] ∧ (copy_source [] (some 3)).1 = [] :=
  delete_copy_bad_input [] (some 3) (Or.inr rfl)

/-- C3: once an invocation is classified `Failure` the run loop performs
no further invocations — in any run, a failed invocation is always the
last element of the trace; in particular for the schema `[a, b]` with
repeat count 2 where position 2 fails on the first pass, exactly
positions 1 then 2 of pass 1 are invoked, the engine aborts, and no
second pass starts. -/
theorem run_schema_halts_on_failure (exec : Nat → Nat → Bool)
    (a b : Source) (h1 : exec 1 1 = true) (h2 : exec 1 2 = false) :
    run_schema exec [a, b] 2 2 = ([(1, 1), (1, 2)], .Aborted) ∧
    ∀ (sources : List Source) (rep rc fuel : Nat) (q : Nat × Nat),
      q ∈ (run_loop exec sources rep rc fuel).1 →
      exec q.1 q.2 = false →
      (run_loop exec sources rep rc fuel).1.getLast? = some q := by
  constructor
  · simp [run_schema, run_loop, run_pass, h1, h2]
  · intro sources rep rc fuel q hq hf
    exact run_loop_fail_last exec sources rep fuel rc q hq hf

/-- C3 witness: the theorem at an oracle that succeeds at position 1 and
fails at position 2, on the two sample sources. -/
theorem run_schema_halts_on_failure_witness :
    run_schema (fun _ j => j == 1) [sampleSource, sampleSource2] 2 2 =
      ([(1, 1), (1, 2)], .Aborted) :=
  (run_schema_halts_on_failure (fun _ j => j == 1) sampleSource sampleSource2
    rfl rfl).1

/-- C5: when every invocation succeeds, running with repeat count 3
(and fuel for its 3 passes) produces the traces of passes 1, 2, 3 each
visiting positions 1..n in original schema order, ends `Completed`, and
invokes each source position exactly 3 times. -/
theorem run_schema_three_passes (exec : Nat → Nat → Bool)
    (sources : List Source) (hall : ∀ r j, exec r j = true) :
    run_schema exec sources 3 3 =
      (pass_trace 1 1 sources.length ++ (pass_trace 2 1 sources.length ++
        pass_trace 3 1 sources.length), .Completed) ∧
    ∀ j, 1 ≤ j → j ≤ sources.length →
      ((run_schema exec sources 3 3).1.filter (fun p => p.2 == j)).length
        = 3 := by
  have hp1 := run_pass_all_success exec 1 (hall 1) sources 1
  have hp2 := run_pass_all_success exec 2 (hall 2) sources 1
  have hp3 := run_pass_all_success exec 3 (hall 3) sources 1
  have e1 : run_loop exec sources 3 0 3 =
      ((run_pass exec 1 1 sources).1 ++ (run_loop exec sources 3 1 2).1,
        (run_loop exec sources 3 1 2).2) :=
    run_loop_step exec sources 3 0 2 (Or.inr (by omega)) (by rw [hp1])
  have e2 : run_loop exec sources 3 1 2 =
      ((run_pass exec 2 1 sources).1 ++ (run_loop exec sources 3 2 1).1,
        (run_loop exec sources 3 2 1).2) :=
    run_loop_step exec sources 3 1 1 (Or.inr (by omega)) (by rw [hp2])
  have e3 : run_loop exec sources 3 2 1 =
      ((run_pass exec 3 1 sources).1 ++ (run_loop exec sources 3 3 0).1,
        (run_loop exec sources 3 3 0).2) :=
    run_loop_step exec sources 3 2 0 (Or.inr (by omega)) (by rw [hp3])
  have e4 : run_loop exec sources 3 3 0 = ([], .Completed) :=
    run_loop_exit exec sources 3 3 (by omega) 0
  have htr : run_schema exec sources 3 3 =
      (pass_trace 1 1 sources.length ++ (pass_trace 2 1 sources.length ++
        pass_trace 3 1 sources.length), .Completed) := by
    show run_loop exec sources 3 0 3 = _
    rw [e1, e2, e3, e4, hp1, hp2, hp3]
    simp
  refine ⟨htr, ?_⟩
  intro j hj1 hj2
  rw [htr]
  simp only [List.filter_append, List.length_append, pass_trace_filter_count]
  rw [if_pos (by omega : 1 ≤ j ∧ j < 1 + sources.length)]

/-- C5 witness: the theorem at an all-success oracle on a one-source
schema. -/
theorem run_schema_three_passes_witness :
    run_schema (fun _ _ => true) [sampleSource] 3 3 =
      ([(1, 1), (2, 1), (3, 1)], .Completed) ∧
    ((run_schema (fun _ _ => true) [sampleSource] 3 3).1.filter
      (fun p => p.2 == 1)).length = 3 := by
  have h := run_schema_three_passes (fun _ _ => true) [sampleSource]
    (fun _ _ => rfl)
  exact ⟨h.1.trans (by rfl), h.2 1 (by decide) (by decide)⟩

/-- C6: with repeat count 0 ("run forever") and a single source whose
invocation fails, the loop stops after exactly one invocation attempt
and aborts — for every remaining fuel budget, never looping. -/
theorem run_schema_infinite_fail_halts (exec : Nat → Nat → Bool)
    (s : Source) (h : exec 1 1 = false) (fuel : Nat) :
    run_schema exec [s] 0 (fuel + 1) = ([(1, 1)], .Aborted) := by
  simp [run_schema, run_loop, run_pass, h]

/-- C6 witness: the theorem at an always-failing oracle with fuel 5. -/
theorem run_schema_infinite_fail_halts_witness :
    run_schema (fun _ _ => false) [sampleSource] 0 5 = ([(1, 1)], .Aborted) :=
  run_schema_infinite_fail_halts (fun _ _ => false) sampleSource rfl 4

/-- C9 counterexample: `cleanup` does not clear the tracked list — after
flushing one tracked path the `temp_files` list is still non-empty (the
code relies on `sys.exit(0)` immediately afterwards). -/
theorem cleanup_does_not_clear_tracked :
    (cleanup ["gen_1.tmp"] (fun _ => true)).1 ≠ [] := by
  simp [cleanup]

/-- C9 (amended): `cleanup` removes every tracked path that still
exists, touches no other path, does not raise on a missing file (each
removal is guarded by an existence check, so the transformer is total),
and is idempotent on the filesystem; the tracked list itself is left
unchanged rather than cleared. -/
theorem cleanup_spec (tracked : List String) (fs : String → Bool) :
    (∀ p ∈ tracked, (cleanup tracked fs).2 p = false) ∧
    (∀ p, p ∉ tracked → (cleanup tracked fs).2 p = fs p) ∧
    (cleanup tracked (cleanup tracked fs).2).2 = (cleanup tracked fs).2 ∧
    (cleanup tracked fs).1 = tracked := by
  refine ⟨?_, ?_, ?_, rfl⟩
  · intro p hp
    exact cleanup_files_removes p tracked fs hp
  · intro p hp
    exact cleanup_files_preserves p tracked fs hp
  · exact cleanup_files_of_all_gone tracked _
      fun p hp => cleanup_files_removes p tracked fs hp

/-- C9 witness: the amended theorem at one tracked file on a filesystem
holding that file and one untracked file. -/
theorem cleanup_spec_witness :
    (cleanup ["a.tmp"] (fun s => s == "a.tmp" || s == "b.txt")).2 "a.tmp"
      = false ∧
    (cleanup ["a.tmp"] (fun s => s == "a.tmp" || s == "b.txt")).2 "b.txt"
      = true := by
  have h := cleanup_spec ["a.tmp"] (fun s => s == "a.tmp" || s == "b.txt")
  refine ⟨h.1 "a.tmp" (by simp), ?_⟩
  rw [h.2.1 "b.txt" (by decide)]
  rfl

end DiskPuri
